import Mathlib

/-!
Shallow embedding of the Hibiscus workspace core (src/src-tauri/src) and
verification of its specification claims.

The embedding mirrors, definition by definition:
- `error.rs`          → `HibiscusError`
- `commands/path.rs`  → `validate_path`, `MAX_PATH_DEPTH`
- `commands/files.rs` → `write_text_file`
- `commands/workspace.rs` / `commands/calendar.rs`
                      → `load_workspace`, `save_workspace`,
                        `read_calendar_data`, `save_calendar_data`
- `tree.rs` / `commands/tree.rs` → `read_dir_recursive`, `build_tree`
- `watcher.rs`        → `process_event`, `watch_workspace`

Filesystem and clock effects are made explicit: file contents become
`Option String` state, injected failure points model fallible I/O steps,
and timestamps are natural numbers in milliseconds.
-/

set_option maxRecDepth 10000

namespace Hibiscus

/-- Mirror of `HibiscusError` in `error.rs`. -/
inductive HibiscusError where
  | fileNotFound (msg : String)
  | invalidPathType (path expected actual : String)
  | pathValidation (msg : String)
  | ioErr (msg : String)
  | serialization (msg : String)
  | workspaceErr (msg : String)
  | watcherErr (msg : String)
deriving DecidableEq, Repr

/-! ### Path validation (`commands/path.rs`) -/

/-- Maximum allowed path depth, `MAX_PATH_DEPTH` in `commands/path.rs`. -/
def MAX_PATH_DEPTH : Nat := 50

/-- `listStartsWith hay pat`: `pat` is a prefix of `hay`. -/
def listStartsWith : List Char → List Char → Bool
  | _, [] => true
  | [], _ :: _ => false
  | c :: cs, d :: ds => c = d && listStartsWith cs ds

/-- `listContainsSub hay pat`: `pat` occurs contiguously inside `hay`.
Models Rust `str::contains` on the characters of the string. -/
def listContainsSub : List Char → List Char → Bool
  | [], pat => listStartsWith [] pat
  | c :: rest, pat => listStartsWith (c :: rest) pat || listContainsSub rest pat

/-- Rust `path_str.contains(pattern)`. -/
def strContainsSub (hay pat : String) : Bool :=
  listContainsSub hay.data pat.data

/-- The traversal check of `validate_path`: `path_str.contains("..")`. -/
def containsDotDot (s : String) : Bool :=
  strContainsSub s ".."

/-- Splits a character list on a separator character; the list of
segments is never empty and adjacent separators yield empty segments. -/
def splitChars (sep : Char) : List Char → List (List Char)
  | [] => [[]]
  | c :: rest =>
    match splitChars sep rest with
    | [] => [[]]
    | seg :: segs =>
      if c = sep then [] :: seg :: segs else (c :: seg) :: segs

/-- The `/`-separated segments of a path string. -/
def pathSegments (p : String) : List (List Char) :=
  splitChars '/' p.data

/-- Component count of a path string, modelling Rust
`Path::components().count()`: separators split the path, empty and `"."`
segments are normalized away, a leading root `/` counts as one component,
and a leading `./` (or the path `"."`) contributes one `CurDir` component. -/
def pathComponentCount (p : String) : Nat :=
  let core := (pathSegments p).filter (fun seg => seg ≠ [] && seg ≠ ['.'])
  let rootExtra := if listStartsWith p.data ['/'] then 1 else 0
  let curExtra :=
    if p.data = ['.'] || listStartsWith p.data ['.', '/'] then 1 else 0
  rootExtra + curExtra + core.length

/-- Mirror of `validate_path` in `commands/path.rs`: reject when the textual
form contains `".."`, reject when the component count exceeds
`MAX_PATH_DEPTH`, otherwise return the path unchanged. -/
def validate_path (path : String) : Except HibiscusError String :=
  if containsDotDot path then
    .error (.pathValidation "Path traversal not allowed")
  else if pathComponentCount path > MAX_PATH_DEPTH then
    .error (.pathValidation
      ("Path depth " ++ toString (pathComponentCount path) ++
        " exceeds maximum " ++ toString MAX_PATH_DEPTH))
  else
    .ok path

/-- A character that acts as a path separator in some platform style. -/
def isSepChar (c : Char) : Prop := c = '/' ∨ c = '\\'

/-- The string contains `..` as a whole path segment: an occurrence of
`".."` bounded on each side by a separator character (of either platform
style) or by the corresponding end of the string. -/
def HasTraversalSegment (s : String) : Prop :=
  ∃ pre suf : List Char,
    s.data = pre ++ '.' :: '.' :: suf ∧
    (pre = [] ∨ ∃ pre2 c, pre = pre2 ++ [c] ∧ isSepChar c) ∧
    (suf = [] ∨ ∃ c suf2, suf = c :: suf2 ∧ isSepChar c)

theorem listStartsWith_same : ∀ pat suf : List Char,
    listStartsWith (pat ++ suf) pat = true := by
  intro pat
  induction pat with
  | nil => intro suf; cases suf <;> rfl
  | cons c cs ih =>
    intro suf
    simp [listStartsWith, ih suf]

theorem listContainsSub_append (pre pat suf : List Char) :
    listContainsSub (pre ++ pat ++ suf) pat = true := by
  induction pre with
  | nil =>
    simp only [List.nil_append]
    cases hps : pat ++ suf with
    | nil =>
      have hp : pat = [] := (List.append_eq_nil.mp hps).1
      have hs : suf = [] := (List.append_eq_nil.mp hps).2
      subst hp; subst hs
      rfl
    | cons c rest =>
      show (listStartsWith (c :: rest) pat || listContainsSub rest pat) = true
      rw [← hps, listStartsWith_same]
      simp
  | cons c cs ih =>
    have hcons : (c :: cs) ++ pat ++ suf = c :: (cs ++ pat ++ suf) := by simp
    rw [hcons]
    show (listStartsWith (c :: (cs ++ pat ++ suf)) pat
      || listContainsSub (cs ++ pat ++ suf) pat) = true
    rw [ih]
    simp

theorem containsDotDot_of_append {s : String} {pre suf : List Char}
    (h : s.data = pre ++ '.' :: '.' :: suf) : containsDotDot s = true := by
  unfold containsDotDot strContainsSub
  rw [h]
  have : ('.' :: '.' :: suf : List Char) = ['.', '.'] ++ suf := rfl
  rw [this, ← List.append_assoc]
  have hp : (".." : String).data = ['.', '.'] := rfl
  rw [hp]
  exact listContainsSub_append pre ['.', '.'] suf

/-- Concrete path with exactly 50 components, the first of which holds a
`..` substring inside one filename (not a traversal segment). -/
def fiftyPathWithInnerDots : String :=
  "a..b/a/a/a/a/a/a/a/a/a/a/a/a/a/a/a/a/a/a/a/a/a/a/a/a/a/a/a/a/a/a/a/a/a/a/a/a/a/a/a/a/a/a/a/a/a/a/a/a/a"

/-- Concrete path with exactly 50 plain components. -/
def fiftyPath : String :=
  "a/a/a/a/a/a/a/a/a/a/a/a/a/a/a/a/a/a/a/a/a/a/a/a/a/a/a/a/a/a/a/a/a/a/a/a/a/a/a/a/a/a/a/a/a/a/a/a/a/a"

/-- Concrete path with 51 plain components. -/
def fiftyOnePath : String :=
  "a/a/a/a/a/a/a/a/a/a/a/a/a/a/a/a/a/a/a/a/a/a/a/a/a/a/a/a/a/a/a/a/a/a/a/a/a/a/a/a/a/a/a/a/a/a/a/a/a/a/a"

/-- Claim C7: for every path containing a parent-directory traversal
segment `..` — wherever the segment sits and whichever separator style
delimits it — `validate_path` fails with a `PathValidation` error. -/
theorem validate_path_rejects_traversal_segment (s : String)
    (h : HasTraversalSegment s) :
    validate_path s = .error (.pathValidation "Path traversal not allowed") := by
  obtain ⟨pre, suf, hdata, -, -⟩ := h
  have hc := containsDotDot_of_append hdata
  simp [validate_path, hc]

theorem validate_path_rejects_traversal_segment_witness :
    validate_path "a/../b"
      = .error (.pathValidation "Path traversal not allowed") :=
  validate_path_rejects_traversal_segment "a/../b"
    ⟨['a', '/'], ['/', 'b'], by decide,
      Or.inr ⟨['a'], '/', by decide, Or.inl rfl⟩,
      Or.inr ⟨'/', ['b'], rfl, Or.inl rfl⟩⟩

/-- Claim C10: `validate_path` rejects with `PathValidation` every path
whose textual form contains `..` anywhere as a substring, even inside a
single filename that is not a parent-directory traversal segment. -/
theorem validate_path_rejects_dotdot_substring (s : String)
    (h : containsDotDot s = true) :
    validate_path s = .error (.pathValidation "Path traversal not allowed") := by
  simp [validate_path, h]

theorem validate_path_rejects_dotdot_substring_witness :
    (containsDotDot "notes..txt" = true ∧
      ['.', '.'] ∉ pathSegments "notes..txt" ∧
      validate_path "notes..txt"
        = .error (.pathValidation "Path traversal not allowed")) ∧
    (containsDotDot "a..b/c" = true ∧
      ['.', '.'] ∉ pathSegments "a..b/c" ∧
      validate_path "a..b/c"
        = .error (.pathValidation "Path traversal not allowed")) :=
  ⟨⟨by decide, by decide,
      validate_path_rejects_dotdot_substring "notes..txt" (by decide)⟩,
    ⟨by decide, by decide,
      validate_path_rejects_dotdot_substring "a..b/c" (by decide)⟩⟩

/-- Claim C6 fails as stated: this path has exactly 50 components and
contains no `..` traversal segment, yet `validate_path` rejects it,
because the textual `..` substring check fires inside the filename
`a..b`. -/
theorem validate_path_depth_boundary_counterexample :
    pathComponentCount fiftyPathWithInnerDots = MAX_PATH_DEPTH ∧
    ['.', '.'] ∉ pathSegments fiftyPathWithInnerDots ∧
    validate_path fiftyPathWithInnerDots
      = .error (.pathValidation "Path traversal not allowed") :=
  ⟨by decide, by decide, by rfl⟩

/-- Claim C6 (amended): every path with component count above 50 fails
with a `PathValidation` error; every path with component count exactly 50
whose textual form contains no `..` substring succeeds, returning the
path unchanged. -/
theorem validate_path_depth_boundary (p : String) :
    (pathComponentCount p > MAX_PATH_DEPTH →
      ∃ msg, validate_path p = .error (.pathValidation msg)) ∧
    (pathComponentCount p = MAX_PATH_DEPTH → containsDotDot p = false →
      validate_path p = .ok p) := by
  constructor
  · intro hgt
    by_cases hc : containsDotDot p = true
    · exact ⟨"Path traversal not allowed", by simp [validate_path, hc]⟩
    · exact ⟨"Path depth " ++ toString (pathComponentCount p) ++
        " exceeds maximum " ++ toString MAX_PATH_DEPTH,
        by simp [validate_path, hc, hgt]⟩
  · intro heq hc
    simp [validate_path, hc, heq, MAX_PATH_DEPTH]

theorem validate_path_depth_boundary_witness :
    (pathComponentCount fiftyOnePath > MAX_PATH_DEPTH ∧
      ∃ msg, validate_path fiftyOnePath = .error (.pathValidation msg)) ∧
    (pathComponentCount fiftyPath = MAX_PATH_DEPTH ∧
      containsDotDot fiftyPath = false ∧
      validate_path fiftyPath = .ok fiftyPath) :=
  ⟨⟨by decide, (validate_path_depth_boundary fiftyOnePath).1 (by decide)⟩,
    ⟨by decide, by rfl,
      (validate_path_depth_boundary fiftyPath).2 (by decide) (by rfl)⟩⟩

/-! ### Tree building (`tree.rs`, `commands/tree.rs`, `workspace.rs`) -/

/-- Mirror of `NodeType` in `workspace.rs`. -/
inductive NodeType where
  | file
  | folder
deriving DecidableEq, Repr

/-- Mirror of `Node` in `workspace.rs`: id, name, node type, relative path
(files only), children (folders only), and the reserved meta slot. -/
inductive Node where
  | mk (id : String) (name : String) (node_type : NodeType)
      (path : Option String) (children : Option (List Node))
      (meta : Option Unit)

def Node.name : Node → String
  | .mk _ n _ _ _ _ => n

def Node.nodeType : Node → NodeType
  | .mk _ _ t _ _ _ => t

/-- A directory entry as surfaced by `fs::read_dir`: a file or directory
whose name is `none` when it cannot be decoded to UTF-8 (such entries are
skipped by the walk). -/
inductive FsEntry where
  | file (name : Option String)
  | dir (name : Option String) (entries : List FsEntry)

/-- Relative path of a child against the walked base, modelling
`path.strip_prefix(base)` along the recursive walk. -/
def joinRel (base name : String) : String :=
  if base = "" then name else base ++ "/" ++ name

/-- Case-insensitive sort key: `name.to_lowercase()`. -/
def nodeKey (n : Node) : String :=
  String.mk (n.name.data.map Char.toLower)

/-- Comparator used by the two `sort_by` calls in `read_dir_recursive`. -/
def nodeLe (a b : Node) : Prop := nodeKey a ≤ nodeKey b

instance : DecidableRel nodeLe :=
  fun a b => inferInstanceAs (Decidable (nodeKey a ≤ nodeKey b))

instance : IsTotal Node nodeLe :=
  ⟨fun a b => le_total (nodeKey a) (nodeKey b)⟩

instance : IsTrans Node nodeLe :=
  ⟨fun _ _ _ hab hbc => le_trans hab hbc⟩

/-- Stable sort by lowercased name, modelling Rust's stable `sort_by`. -/
def sortNodes (l : List Node) : List Node :=
  l.insertionSort nodeLe

/-- Per-entry processing of the walk loop in `read_dir_recursive`:
skip undecodable names and hidden entries, build a `Node` tagged with
`is_dir`, recursing into directories through `recurse`. -/
def entryNode (recurse : String → List FsEntry → List Node)
    (relBase : String) : FsEntry → Option (Bool × Node)
  | FsEntry.file none => none
  | FsEntry.dir none _ => none
  | FsEntry.file (some name) =>
    if listStartsWith name.data ['.'] then none
    else
      let rel := joinRel relBase name
      some (false, Node.mk rel name NodeType.file (some rel) none none)
  | FsEntry.dir (some name) children =>
    if listStartsWith name.data ['.'] then none
    else
      let rel := joinRel relBase name
      some (true, Node.mk rel name NodeType.folder none
        (some (recurse rel children)) none)

/-- Mirror of `read_dir_recursive` in `tree.rs`: depth 0 short-circuits to
the empty list; entries are classified and partitioned into folders and
files; each partition is sorted case-insensitively; folders come first. -/
def read_dir_recursive : List FsEntry → String → Nat → List Node
  | _, _, 0 => []
  | entries, relBase, d + 1 =>
    let tagged := entries.filterMap
      (entryNode (fun rel cs => read_dir_recursive cs rel d) relBase)
    let folders := (tagged.filter fun t => t.1).map Prod.snd
    let files := (tagged.filter fun t => !t.1).map Prod.snd
    sortNodes folders ++ sortNodes files

/-- Maximum tree depth, `MAX_TREE_DEPTH` in `commands/tree.rs`. -/
def MAX_TREE_DEPTH : Nat := 20

/-- What the filesystem holds at the root supplied to `build_tree`:
nothing, a plain file, or a directory with its entries. -/
inductive RootView where
  | absent
  | fileEntry
  | dirEntry (entries : List FsEntry)

/-- Rust `Path::is_dir` on the modelled root view. -/
def RootView.is_dir : RootView → Bool
  | .dirEntry _ => true
  | _ => false

/-- Mirror of `build_tree` in `commands/tree.rs`: validate the root, then
reject any root that is not a directory with `InvalidPathType` (the code
performs no separate existence check), else walk it. -/
def build_tree (root : String) (view : RootView) :
    Except HibiscusError (List Node) :=
  match validate_path root with
  | .error e => .error e
  | .ok _ =>
    match view with
    | RootView.dirEntry entries =>
      .ok (read_dir_recursive entries "" MAX_TREE_DEPTH)
    | _ => .error (.invalidPathType root "directory" "file")

/-- Discriminator for the `FileNotFound` error variant. -/
def isFileNotFound {α : Type} : Except HibiscusError α → Bool
  | .error (.fileNotFound _) => true
  | _ => false

theorem entryNode_nodeType (recurse : String → List FsEntry → List Node)
    (relBase : String) (e : FsEntry) (t : Bool × Node)
    (h : entryNode recurse relBase e = some t) :
    t.2.nodeType = (if t.1 then NodeType.folder else NodeType.file) := by
  cases e with
  | file oname =>
    cases oname with
    | none => exact absurd h (by simp [entryNode])
    | some name =>
      simp only [entryNode] at h
      split_ifs at h
      injection h with h2
      subst h2
      rfl
  | dir oname children =>
    cases oname with
    | none => exact absurd h (by simp [entryNode])
    | some name =>
      simp only [entryNode] at h
      split_ifs at h
      injection h with h2
      subst h2
      rfl

theorem sortNodes_pairwise (l : List Node) :
    (sortNodes l).Pairwise nodeLe :=
  List.sorted_insertionSort nodeLe l

theorem mem_sortNodes {n : Node} {l : List Node} :
    n ∈ sortNodes l ↔ n ∈ l :=
  List.mem_insertionSort nodeLe

/-- Claim C8: for every directory listing (at positive remaining depth),
the walk returns the folder entries followed by the file entries, each
group sorted case-insensitively by name; in particular a folder named
`zzz` precedes a file named `aaa.txt`. -/
theorem read_dir_recursive_folders_before_files :
    (∀ (entries : List FsEntry) (relBase : String) (d : Nat), 0 < d →
      ∃ fo fi, read_dir_recursive entries relBase d = fo ++ fi ∧
        (∀ n ∈ fo, n.nodeType = NodeType.folder) ∧
        (∀ n ∈ fi, n.nodeType = NodeType.file) ∧
        fo.Pairwise nodeLe ∧ fi.Pairwise nodeLe) ∧
    read_dir_recursive
        [FsEntry.file (some "aaa.txt"), FsEntry.dir (some "zzz") []] "" 20
      = [Node.mk "zzz" "zzz" NodeType.folder none (some []) none,
          Node.mk "aaa.txt" "aaa.txt" NodeType.file (some "aaa.txt") none
            none] := by
  constructor
  · intro entries relBase d hd
    cases d with
    | zero => exact absurd hd (by omega)
    | succ e =>
      refine ⟨_, _, rfl, ?_, ?_, sortNodes_pairwise _, sortNodes_pairwise _⟩
      · intro n hn
        rw [mem_sortNodes] at hn
        obtain ⟨t, ht, rfl⟩ := List.mem_map.mp hn
        obtain ⟨htm, htd⟩ := List.mem_filter.mp ht
        obtain ⟨a, _, ha⟩ := List.mem_filterMap.mp htm
        have := entryNode_nodeType _ _ _ _ ha
        rw [this, if_pos (by simpa using htd)]
      · intro n hn
        rw [mem_sortNodes] at hn
        obtain ⟨t, ht, rfl⟩ := List.mem_map.mp hn
        obtain ⟨htm, htd⟩ := List.mem_filter.mp ht
        obtain ⟨a, _, ha⟩ := List.mem_filterMap.mp htm
        have := entryNode_nodeType _ _ _ _ ha
        rw [this, if_neg (by simpa using htd)]
  · rfl

theorem read_dir_recursive_folders_before_files_witness :
    0 < (20 : Nat) ∧
    ∃ fo fi,
      read_dir_recursive
          [FsEntry.file (some "aaa.txt"), FsEntry.dir (some "zzz") []] "" 20
        = fo ++ fi ∧
      (∀ n ∈ fo, n.nodeType = NodeType.folder) ∧
      (∀ n ∈ fi, n.nodeType = NodeType.file) ∧
      fo.Pairwise nodeLe ∧ fi.Pairwise nodeLe :=
  ⟨by decide,
    read_dir_recursive_folders_before_files.1
      [FsEntry.file (some "aaa.txt"), FsEntry.dir (some "zzz") []] "" 20
      (by decide)⟩

/-- Claim C2 fails as stated: with no filesystem entry at the validated
root `missing`, `build_tree` returns the `InvalidPathType` ("wrong type")
error, not the `FileNotFound` ("not found") error the claim requires;
the two cases are not distinguished. -/
theorem build_tree_absent_counterexample :
    build_tree "missing" RootView.absent
      = .error (.invalidPathType "missing" "directory" "file") ∧
    isFileNotFound (build_tree "missing" RootView.absent) = false :=
  ⟨rfl, rfl⟩

/-- Claim C2 (amended): for every validated root that is not an existing
directory — whether absent or an existing non-directory entry —
`build_tree` fails with the single `InvalidPathType` error naming the
root, expecting a directory; no `FileNotFound` variant is produced. -/
theorem build_tree_nondir_error (root : String) (view : RootView)
    (hv : validate_path root = .ok root)
    (hnd : view.is_dir = false) :
    build_tree root view
      = .error (.invalidPathType root "directory" "file") := by
  cases view with
  | absent => simp [build_tree, hv]
  | fileEntry => simp [build_tree, hv]
  | dirEntry es => exact absurd hnd (by simp [RootView.is_dir])

theorem build_tree_nondir_error_witness :
    validate_path "ws" = .ok "ws" ∧
    RootView.absent.is_dir = false ∧
    build_tree "ws" RootView.absent
      = .error (.invalidPathType "ws" "directory" "file") :=
  ⟨rfl, rfl, build_tree_nondir_error "ws" RootView.absent rfl rfl⟩

/-! ### Raw file persistence (`commands/files.rs`) -/

/-- The fallible steps of `write_text_file` after validation: temp-file
creation, writing the bytes, the durability sync, the Windows-only
pre-rename delete of the target, and the final rename. -/
inductive WriteStep where
  | createTemp
  | writeAll
  | syncAll
  | removeTarget
  | renameStep
deriving DecidableEq, Repr

/-- Observable outcome of one `write_text_file` call: the returned value,
the contents at the target path and at the temporary sibling afterwards
(`none` = no file), and whether deletion of the temporary was attempted. -/
structure WriteOutcome where
  result : Except HibiscusError Unit
  target : Option String
  temp : Option String
  tempDeleteAttempted : Bool
deriving Repr

/-- Mirror of `write_text_file` in `commands/files.rs` with explicit
failure injection. `failAt` names the first executed step that fails (a
step that is not reached or not executed on this platform cannot fail);
`tempDeleteFails` makes the best-effort cleanup deletion itself fail,
which the code ignores; `truncatedTemp` is whatever partial content a
failed write left in the temporary file; `tgt0`/`tmp0` are the prior
contents of the target path and of the temporary sibling. -/
def write_text_file (path contents : String) (windowsOs : Bool)
    (failAt : Option WriteStep) (tempDeleteFails : Bool)
    (truncatedTemp : String) (tgt0 tmp0 : Option String) : WriteOutcome :=
  match validate_path path with
  | .error e => ⟨.error e, tgt0, tmp0, false⟩
  | .ok _ =>
    if failAt = some WriteStep.createTemp then
      ⟨.error (.ioErr "Failed to create temp file"), tgt0,
        (if tempDeleteFails then tmp0 else none), true⟩
    else if failAt = some WriteStep.writeAll then
      ⟨.error (.ioErr "Failed to write to temp file"), tgt0,
        (if tempDeleteFails then some truncatedTemp else none), true⟩
    else if failAt = some WriteStep.syncAll then
      ⟨.error (.ioErr "Failed to sync file"), tgt0,
        (if tempDeleteFails then some contents else none), true⟩
    else if windowsOs && tgt0.isSome && failAt = some WriteStep.removeTarget
    then
      ⟨.error (.ioErr "Failed to remove existing file before save"), tgt0,
        (if tempDeleteFails then some contents else none), true⟩
    else
      let tgt1 := if windowsOs then none else tgt0
      if failAt = some WriteStep.renameStep then
        ⟨.error (.ioErr "Failed to rename"), tgt1,
          (if tempDeleteFails then some contents else none), true⟩
      else
        ⟨.ok (), some contents, none, false⟩

/-- Claim C3 fails as stated: on Windows, with prior content at the
target, the pre-rename delete succeeds and the rename then fails; the
original error is surfaced and the temp cleaned up, but the target path
is left absent, so its previously observable content is not unchanged. -/
theorem write_text_file_failure_counterexample :
    (write_text_file "a.txt" "new" true (some WriteStep.renameStep) false
        "" (some "old") none).target = none ∧
    (write_text_file "a.txt" "new" true (some WriteStep.renameStep) false
        "" (some "old") none).result
      = .error (.ioErr "Failed to rename") ∧
    (write_text_file "a.txt" "new" true (some WriteStep.renameStep) false
        "" (some "old") none).tempDeleteAttempted = true :=
  ⟨rfl, rfl, rfl⟩

/-- Claim C3 (amended): for every validated call that fails at a step
after the temporary file is created (write, sync, pre-rename delete, or
rename), deletion of the temporary is attempted with secondary deletion
errors ignored and the original error of that step is returned; the
target is never truncated or partially written — it holds its prior
content, except that on Windows a rename failure after the successful
pre-rename delete leaves the target absent. -/
theorem write_text_file_failure_cleanup (path contents : String)
    (windowsOs : Bool) (failAt : WriteStep) (tempDeleteFails : Bool)
    (truncatedTemp : String) (tgt0 tmp0 : Option String)
    (hv : validate_path path = .ok path)
    (hpost : failAt ≠ WriteStep.createTemp) :
    let w := write_text_file path contents windowsOs (some failAt)
      tempDeleteFails truncatedTemp tgt0 tmp0
    (w.target = tgt0 ∨ w.target = none ∨ w.target = some contents) ∧
    (failAt = WriteStep.writeAll →
      w.result = .error (.ioErr "Failed to write to temp file") ∧
      w.tempDeleteAttempted = true ∧ w.target = tgt0) ∧
    (failAt = WriteStep.syncAll →
      w.result = .error (.ioErr "Failed to sync file") ∧
      w.tempDeleteAttempted = true ∧ w.target = tgt0) ∧
    (failAt = WriteStep.removeTarget → windowsOs = true → tgt0.isSome →
      w.result = .error (.ioErr "Failed to remove existing file before save") ∧
      w.tempDeleteAttempted = true ∧ w.target = tgt0) ∧
    (failAt = WriteStep.renameStep →
      w.result = .error (.ioErr "Failed to rename") ∧
      w.tempDeleteAttempted = true ∧
      w.target = (if windowsOs then none else tgt0)) := by
  intro w
  have hw : w = write_text_file path contents windowsOs (some failAt)
      tempDeleteFails truncatedTemp tgt0 tmp0 := rfl
  rw [write_text_file, hv] at hw
  cases failAt with
  | createTemp => exact absurd rfl hpost
  | writeAll =>
    simp only [reduceCtorEq, Option.some.injEq, if_false, if_true,
      if_neg, if_pos] at hw
    refine ⟨?_, ?_, ?_, ?_, ?_⟩ <;>
      simp [hw, write_text_file, hv]
  | syncAll =>
    refine ⟨?_, ?_, ?_, ?_, ?_⟩ <;>
      simp [hw, write_text_file, hv]
  | removeTarget =>
    refine ⟨?_, ?_, ?_, ?_, ?_⟩ <;>
      simp [hw, write_text_file, hv] <;>
      cases windowsOs <;> cases tgt0 <;> simp
  | renameStep =>
    refine ⟨?_, ?_, ?_, ?_, ?_⟩ <;>
      simp [hw, write_text_file, hv] <;>
      cases windowsOs <;> cases tgt0 <;> simp

theorem write_text_file_failure_cleanup_witness :
    validate_path "b.txt" = .ok "b.txt" ∧
    WriteStep.syncAll ≠ WriteStep.createTemp ∧
    ((write_text_file "b.txt" "new" false (some WriteStep.syncAll) false ""
        (some "old") none).target = some "old" ∧
      (write_text_file "b.txt" "new" false (some WriteStep.syncAll) false ""
        (some "old") none).result = .error (.ioErr "Failed to sync file") ∧
      (write_text_file "b.txt" "new" false (some WriteStep.syncAll) false ""
        (some "old") none).tempDeleteAttempted = true) := by
  refine ⟨rfl, by decide, ?_⟩
  have h := write_text_file_failure_cleanup "b.txt" "new" false
    WriteStep.syncAll false "" (some "old") none rfl (by decide)
  exact ⟨(h.2.2.1 rfl).2.2, (h.2.2.1 rfl).1, (h.2.2.1 rfl).2.1⟩

/-! ### Structured persistence (`commands/workspace.rs`, `commands/calendar.rs`) -/

/-- Primitive filesystem operations issued by a save call, recorded in
order as an observable trace. -/
inductive FsOp where
  | createDirAll (p : String)
  | writeFileOp (p : String)
  | syncFileOp (p : String)
  | renameOp (src dst : String)
  | removeOp (p : String)
deriving DecidableEq, Repr

def FsOp.isSync : FsOp → Bool
  | .syncFileOp _ => true
  | _ => false

def FsOp.isRemove : FsOp → Bool
  | .removeOp _ => true
  | _ => false

/-- Removes the final `.`-separated extension (dot included) from a file
name's characters; a name without a dot is returned unchanged. -/
def dropLastExtChars : List Char → List Char
  | [] => []
  | c :: rest =>
    if '.' ∈ rest then c :: dropLastExtChars rest
    else if c = '.' then []
    else c :: dropLastExtChars rest

/-- File stem per Rust `Path::file_stem`: a leading dot does not begin an
extension. -/
def fileStemChars : List Char → List Char
  | '.' :: rest =>
    if '.' ∈ rest then '.' :: dropLastExtChars rest else '.' :: rest
  | name => dropLastExtChars name

/-- Splits a path's characters at the last `/`, returning the directory
prefix (with its trailing slash) and the file name. -/
def splitAtLastSlash : List Char → List Char × List Char
  | [] => ([], [])
  | c :: rest =>
    if '/' ∈ rest then
      let r := splitAtLastSlash rest
      (c :: r.1, r.2)
    else if c = '/' then (['/'], rest)
    else ([], c :: rest)

/-- Rust `Path::with_extension`: replace the file name's extension (the
part after its last dot, if any) with `ext`. -/
def with_extension (p ext : String) : String :=
  let sp := splitAtLastSlash p.data
  String.mk (sp.1 ++ fileStemChars sp.2 ++ ('.' :: ext.data))

/-- Rust `Path::parent` as a string (directory prefix without the
trailing slash). -/
def parentDir (p : String) : String :=
  String.mk (splitAtLastSlash p.data).1.dropLast

/-- The fallible steps of a structured save after validation: the temp
write (`fs::write`) and the final rename. -/
inductive SaveStep where
  | writeTemp
  | renameTemp
deriving DecidableEq, Repr

/-- Observable outcome of one structured save: returned value, contents
at the target and at the `.json.tmp` sibling afterwards, and the trace of
filesystem operations issued. -/
structure SaveOutcome where
  result : Except HibiscusError Unit
  target : Option String
  temp : Option String
  trace : List FsOp
deriving Repr

/-- Common body of `save_workspace` and `save_calendar_data`: validate,
create parent directories, write the serialized text to the
`with_extension("json.tmp")` sibling, rename it onto the target. There is
no sync step, and no step deletes the temporary on failure. -/
def save_structured (path json : String) (failAt : Option SaveStep)
    (tgt0 tmp0 : Option String) (msgWrite msgRename : String) :
    SaveOutcome :=
  match validate_path path with
  | .error e => ⟨.error e, tgt0, tmp0, []⟩
  | .ok _ =>
    let temp_path := with_extension path "json.tmp"
    let ops0 := [FsOp.createDirAll (parentDir path)]
    if failAt = some SaveStep.writeTemp then
      ⟨.error (.ioErr msgWrite), tgt0, tmp0,
        ops0 ++ [FsOp.writeFileOp temp_path]⟩
    else if failAt = some SaveStep.renameTemp then
      ⟨.error (.ioErr msgRename), tgt0, some json,
        ops0 ++ [FsOp.writeFileOp temp_path, FsOp.renameOp temp_path path]⟩
    else
      ⟨.ok (), some json, none,
        ops0 ++ [FsOp.writeFileOp temp_path, FsOp.renameOp temp_path path]⟩

/-- Mirror of `save_workspace` in `commands/workspace.rs`. -/
def save_workspace (path json : String) (failAt : Option SaveStep)
    (tgt0 tmp0 : Option String) : SaveOutcome :=
  save_structured path json failAt tgt0 tmp0
    "Failed to write temp workspace file" "Failed to finalize workspace.json"

/-- Mirror of `save_calendar_data` in `commands/calendar.rs`; the target
is `<root>/.hibiscus/calendar.json`. -/
def save_calendar_data (root json : String) (failAt : Option SaveStep)
    (tgt0 tmp0 : Option String) : SaveOutcome :=
  save_structured (root ++ "/.hibiscus/calendar.json") json failAt tgt0 tmp0
    "Failed to write temp calendar file" "Failed to save calendar.json"

theorem save_structured_spec (path json : String) (failAt : Option SaveStep)
    (tgt0 tmp0 : Option String) (msgWrite msgRename : String)
    (hv : validate_path path = .ok path) :
    let s := save_structured path json failAt tgt0 tmp0 msgWrite msgRename
    (∀ op ∈ s.trace, op.isSync = false ∧ op.isRemove = false) ∧
    (failAt = some SaveStep.writeTemp →
      s.result = .error (.ioErr msgWrite) ∧ s.target = tgt0 ∧
        s.temp = tmp0) ∧
    (failAt = some SaveStep.renameTemp →
      s.result = .error (.ioErr msgRename) ∧ s.target = tgt0 ∧
        s.temp = some json) ∧
    (failAt = none →
      s.result = .ok () ∧ s.target = some json ∧ s.temp = none) := by
  intro s
  have hs : s = save_structured path json failAt tgt0 tmp0
      msgWrite msgRename := rfl
  rw [save_structured, hv] at hs
  cases failAt with
  | none =>
    refine ⟨?_, ?_, ?_, ?_⟩ <;>
      simp [hs, FsOp.isSync, FsOp.isRemove]
  | some st =>
    cases st with
    | writeTemp =>
      refine ⟨?_, ?_, ?_, ?_⟩ <;>
        simp [hs, FsOp.isSync, FsOp.isRemove]
    | renameTemp =>
      refine ⟨?_, ?_, ?_, ?_⟩ <;>
        simp [hs, FsOp.isSync, FsOp.isRemove]

/-- Claim C1 fails as stated: when the rename step of `save_workspace`
fails, the `.json.tmp` sibling is left on disk (no deletion is even
attempted — the trace holds no remove operation), and no sync operation
is issued at any point, unlike the raw file save. -/
theorem save_workspace_failure_counterexample :
    (save_workspace "ws/.hibiscus/workspace.json" "j"
        (some SaveStep.renameTemp) (some "old") none).temp = some "j" ∧
    (save_workspace "ws/.hibiscus/workspace.json" "j"
        (some SaveStep.renameTemp) (some "old") none).result
      = .error (.ioErr "Failed to finalize workspace.json") ∧
    ((save_workspace "ws/.hibiscus/workspace.json" "j"
        (some SaveStep.renameTemp) (some "old") none).trace.all
      fun op => !op.isSync && !op.isRemove) = true ∧
    (save_workspace "ws/.hibiscus/workspace.json" "j"
        (some SaveStep.renameTemp) (some "old") none).target = some "old" :=
  ⟨rfl, rfl, rfl, rfl⟩

/-- Claim C1 (amended): `save_workspace` and `save_calendar_data`
serialize and then write the text to a `.json.tmp` sibling and rename it
over the target, with no durability sync before the rename; on failure of
the write or the rename the original error is returned and the target's
prior content is unchanged, but the temporary file is not cleaned up — a
rename failure leaves the `.json.tmp` artifact in place (its deletion is
not attempted). -/
theorem save_operations_no_sync_no_cleanup (path root json : String)
    (failAt : Option SaveStep) (tgt0 tmp0 : Option String)
    (hv : validate_path path = .ok path)
    (hvc : validate_path (root ++ "/.hibiscus/calendar.json")
      = .ok (root ++ "/.hibiscus/calendar.json")) :
    (let s := save_workspace path json failAt tgt0 tmp0
     (∀ op ∈ s.trace, op.isSync = false ∧ op.isRemove = false) ∧
     (failAt = some SaveStep.writeTemp →
       s.result = .error (.ioErr "Failed to write temp workspace file") ∧
         s.target = tgt0 ∧ s.temp = tmp0) ∧
     (failAt = some SaveStep.renameTemp →
       s.result = .error (.ioErr "Failed to finalize workspace.json") ∧
         s.target = tgt0 ∧ s.temp = some json) ∧
     (failAt = none →
       s.result = .ok () ∧ s.target = some json ∧ s.temp = none)) ∧
    (let c := save_calendar_data root json failAt tgt0 tmp0
     (∀ op ∈ c.trace, op.isSync = false ∧ op.isRemove = false) ∧
     (failAt = some SaveStep.writeTemp →
       c.result = .error (.ioErr "Failed to write temp calendar file") ∧
         c.target = tgt0 ∧ c.temp = tmp0) ∧
     (failAt = some SaveStep.renameTemp →
       c.result = .error (.ioErr "Failed to save calendar.json") ∧
         c.target = tgt0 ∧ c.temp = some json) ∧
     (failAt = none →
       c.result = .ok () ∧ c.target = some json ∧ c.temp = none)) :=
  ⟨save_structured_spec path json failAt tgt0 tmp0
      "Failed to write temp workspace file"
      "Failed to finalize workspace.json" hv,
    save_structured_spec (root ++ "/.hibiscus/calendar.json") json failAt
      tgt0 tmp0 "Failed to write temp calendar file"
      "Failed to save calendar.json" hvc⟩

theorem save_operations_no_sync_no_cleanup_witness :
    validate_path "ws/.hibiscus/workspace.json"
      = .ok "ws/.hibiscus/workspace.json" ∧
    ((save_workspace "ws/.hibiscus/workspace.json" "j" none none none).result
        = .ok () ∧
      (save_workspace "ws/.hibiscus/workspace.json" "j" none none
        none).target = some "j" ∧
      (save_workspace "ws/.hibiscus/workspace.json" "j" none none
        none).temp = none) ∧
    ((save_calendar_data "ws" "j" none none none).result = .ok () ∧
      (save_calendar_data "ws" "j" none none none).target = some "j" ∧
      (save_calendar_data "ws" "j" none none none).temp = none) := by
  have h := save_operations_no_sync_no_cleanup
    "ws/.hibiscus/workspace.json" "ws" "j" none none none rfl rfl
  exact ⟨rfl, h.1.2.2.2 rfl, h.2.2.2.2 rfl⟩

/-- What the filesystem holds at a load path: nothing, a plain file with
its text content, or a directory. -/
inductive PathView where
  | absent
  | fileWith (content : String)
  | directory

/-- Minimal JSON value type standing for `serde_json::Value`. -/
inductive Json where
  | null
  | bool (b : Bool)
  | num (n : Int)
  | str (s : String)
  | arr (xs : List Json)
  | obj (fields : List (String × Json))

/-- The default empty calendar returned by `read_calendar_data` when no
calendar file exists, mirroring the `serde_json::json!` literal in
`commands/calendar.rs`. -/
def defaultCalendarData : Json :=
  Json.obj
    [("events", Json.arr []),
      ("tasks", Json.arr []),
      ("settings", Json.obj
        [("view", Json.str "month"),
          ("startOfWeek", Json.str "monday")])]

/-- Mirror of `load_workspace` in `commands/workspace.rs`: validate, fail
with `FileNotFound` when the path is absent, with `InvalidPathType` when
it is not a plain file, else read and parse (`parse` stands for the serde
deserialization into `WorkspaceFile`). -/
def load_workspace {α : Type} (parse : String → Except HibiscusError α)
    (path : String) (view : PathView) : Except HibiscusError α :=
  match validate_path path with
  | .error e => .error e
  | .ok _ =>
    match view with
    | PathView.absent => .error (.fileNotFound "workspace.json not found")
    | PathView.directory => .error (.invalidPathType path "file" "directory")
    | PathView.fileWith content => parse content

/-- Mirror of `read_calendar_data` in `commands/calendar.rs`: the path is
`<root>/.hibiscus/calendar.json`; when it is absent the default empty
calendar is returned as a success, not an error; a directory there makes
the read fail with an I/O error. -/
def read_calendar_data (parse : String → Except HibiscusError Json)
    (root : String) (view : PathView) : Except HibiscusError Json :=
  let path := root ++ "/.hibiscus/calendar.json"
  match validate_path path with
  | .error e => .error e
  | .ok _ =>
    match view with
    | PathView.absent => .ok defaultCalendarData
    | PathView.directory => .error (.ioErr "Failed to read calendar.json")
    | PathView.fileWith content => parse content

/-- Claim C5 fails as stated: with no entry at `ws/.hibiscus/calendar.json`,
`read_calendar_data` does not fail with a NotFound error — it returns the
default empty calendar as a successful value. -/
theorem read_calendar_data_absent_counterexample :
    read_calendar_data (fun _ => .error (.serialization "unused")) "ws"
        PathView.absent
      = .ok defaultCalendarData ∧
    isFileNotFound
      (read_calendar_data (fun _ => .error (.serialization "unused")) "ws"
        PathView.absent) = false :=
  ⟨rfl, rfl⟩

/-- Claim C5 (amended): for every validated path at which no filesystem
entry exists, `load_workspace` fails with the `FileNotFound` error, while
`read_calendar_data` succeeds with the default empty calendar value
instead of failing. -/
theorem structured_load_absent (path root : String) {α : Type}
    (parse : String → Except HibiscusError α)
    (parseJson : String → Except HibiscusError Json)
    (hv : validate_path path = .ok path)
    (hvc : validate_path (root ++ "/.hibiscus/calendar.json")
      = .ok (root ++ "/.hibiscus/calendar.json")) :
    load_workspace parse path PathView.absent
      = .error (.fileNotFound "workspace.json not found") ∧
    read_calendar_data parseJson root PathView.absent
      = .ok defaultCalendarData := by
  constructor
  · rw [load_workspace, hv]
  · rw [read_calendar_data]
    rw [hvc]

theorem structured_load_absent_witness :
    validate_path "ws/.hibiscus/workspace.json"
      = .ok "ws/.hibiscus/workspace.json" ∧
    load_workspace (fun _ => .ok ()) "ws/.hibiscus/workspace.json"
        PathView.absent
      = .error (.fileNotFound "workspace.json not found") ∧
    read_calendar_data (fun _ => .ok Json.null) "ws" PathView.absent
      = .ok defaultCalendarData := by
  have h := structured_load_absent "ws/.hibiscus/workspace.json" "ws"
    (fun _ => .ok ()) (fun _ => .ok Json.null) rfl rfl
  exact ⟨rfl, h.1, h.2⟩

/-! ### File watcher (`watcher.rs`) -/

/-- `DEBOUNCE_MS` in `watcher.rs`. -/
def DEBOUNCE_MS : Nat := 300

/-- `RECV_TIMEOUT_MS` in `watcher.rs`. -/
def RECV_TIMEOUT_MS : Nat := 100

/-- `IGNORED_PATHS` in `watcher.rs`. -/
def IGNORED_PATHS : List String :=
  [".hibiscus", ".git", ".vscode", "node_modules", "__pycache__",
    ".DS_Store", "Thumbs.db"]

/-- `should_ignore_path`: the path's text contains some ignored
substring. -/
def should_ignore_path (p : String) : Bool :=
  IGNORED_PATHS.any fun pat => strContainsSub p pat

/-- The `notify::EventKind` classification relevant to `process_event`. -/
inductive EventKind where
  | access
  | create
  | modify
  | remove
  | any
  | other
deriving DecidableEq, Repr

/-- Mirror of `process_event` in `watcher.rs` over explicit time: given
the event kind and paths, the current instant `now` and the last-emit
instant, returns the emitted path batch (or `none`) and the new last-emit
instant. Access and Other events are discarded; fully-ignored events are
dropped; an event inside the debounce window is dropped without touching
the last-emit instant; otherwise the relevant paths are emitted and the
last-emit instant becomes `now`. -/
def process_event (kind : EventKind) (paths : List String)
    (now last_emit : Nat) : Option (List String) × Nat :=
  if kind = EventKind.access then (none, last_emit)
  else if kind = EventKind.other then (none, last_emit)
  else if (paths.filter fun p => !should_ignore_path p).isEmpty then
    (none, last_emit)
  else if now - last_emit < DEBOUNCE_MS then (none, last_emit)
  else (some (paths.filter fun p => !should_ignore_path p), now)

/-- Runs the watcher loop body over a sequence of received events (kind,
paths, arrival instant), threading the last-emit instant; returns the
number of emissions and the final last-emit instant. -/
def processAll : List (EventKind × List String × Nat) → Nat → Nat × Nat
  | [], last_emit => (0, last_emit)
  | e :: rest, last_emit =>
    let r := process_event e.1 e.2.1 e.2.2 last_emit
    let tail := processAll rest r.2
    match r.1 with
    | none => tail
    | some _ => (tail.1 + 1, tail.2)

/-- Mirror of `WatcherState` plus the attached low-level monitor root. -/
structure WatcherStateM where
  running : Bool
  current_path : Option String
  monitorRoot : Option String
deriving DecidableEq, Repr

/-- Mirror of `watch_workspace` in `watcher.rs` (no filesystem events
processed yet): stop any previous watcher, record the new path, flip the
running flag, and in the spawned thread create the monitor and attach it
to the supplied root; either failure flips the flag back and emits one
watcher-error payload. No path validation is performed anywhere. -/
def watch_workspace (path : String) (monitorCreateOk watchAttachOk : Bool)
    (st : WatcherStateM) : WatcherStateM × List String :=
  if monitorCreateOk = false then
    (⟨false, some path, none⟩, ["failed to create file watcher"])
  else if watchAttachOk = false then
    (⟨false, some path, none⟩, ["failed to watch path"])
  else
    (⟨true, some path, some path⟩, [])

/-- Claim C4 fails as stated: the root `../evil` fails `validate_path`
(traversal segment), yet `watch_workspace` — which never calls the
validator — starts a watch session on it: the running flag is set and the
low-level monitor is attached to that very root. -/
theorem watch_workspace_no_validation_counterexample :
    validate_path "../evil"
      = .error (.pathValidation "Path traversal not allowed") ∧
    (watch_workspace "../evil" true true ⟨false, none, none⟩).1.running
      = true ∧
    (watch_workspace "../evil" true true ⟨false, none, none⟩).1.monitorRoot
      = some "../evil" :=
  ⟨rfl, rfl, rfl⟩

/-- Claim C4 (amended): `watch_workspace` performs no PathGuard
validation of the supplied root: for every root string — including roots
that `validate_path` would reject — when the monitor is created and
attached successfully, a watch session becomes active on exactly that
root, and no watcher-error is emitted. -/
theorem watch_workspace_starts_unvalidated (path : String)
    (st : WatcherStateM) :
    (watch_workspace path true true st).1
      = ⟨true, some path, some path⟩ ∧
    (watch_workspace path true true st).2 = [] :=
  ⟨rfl, rfl⟩

theorem process_event_drop (kind : EventKind) (paths : List String)
    (now last_emit : Nat) (h : now < last_emit + DEBOUNCE_MS) :
    process_event kind paths now last_emit = (none, last_emit) := by
  have hlt : now - last_emit < DEBOUNCE_MS := by
    simp only [DEBOUNCE_MS] at h ⊢
    omega
  unfold process_event
  split_ifs with h1 h2 h3 h4 <;> first | rfl | exact absurd hlt h4

theorem process_event_cases (kind : EventKind) (paths : List String)
    (now last_emit : Nat) :
    process_event kind paths now last_emit = (none, last_emit) ∨
    (process_event kind paths now last_emit
        = (some (paths.filter fun p => !should_ignore_path p), now) ∧
      last_emit + DEBOUNCE_MS ≤ now) := by
  unfold process_event
  split_ifs with h1 h2 h3 h4
  · exact Or.inl rfl
  · exact Or.inl rfl
  · exact Or.inl rfl
  · exact Or.inl rfl
  · exact Or.inr ⟨rfl, by simp only [DEBOUNCE_MS] at h4 ⊢; omega⟩

theorem processAll_zero :
    ∀ (events : List (EventKind × List String × Nat)) (lo last0 : Nat),
      lo ≤ last0 →
      (∀ ev ∈ events, lo ≤ ev.2.2 ∧ ev.2.2 < lo + DEBOUNCE_MS) →
      (processAll events last0).1 = 0 := by
  intro events
  induction events with
  | nil => intro lo last0 _ _; rfl
  | cons e rest ih =>
    intro lo last0 hlo hb
    have hbe := hb e (List.mem_cons_self e rest)
    have hdrop : process_event e.1 e.2.1 e.2.2 last0 = (none, last0) :=
      process_event_drop e.1 e.2.1 e.2.2 last0 (by omega)
    show (let r := process_event e.1 e.2.1 e.2.2 last0
          let tail := processAll rest r.2
          match r.1 with
          | none => tail
          | some _ => (tail.1 + 1, tail.2)).1 = 0
    rw [hdrop]
    exact ih lo last0 hlo fun ev hev => hb ev (List.mem_cons_of_mem _ hev)

theorem processAll_le_one :
    ∀ (events : List (EventKind × List String × Nat)) (lo last0 : Nat),
      (∀ ev ∈ events, lo ≤ ev.2.2 ∧ ev.2.2 < lo + DEBOUNCE_MS) →
      (processAll events last0).1 ≤ 1 := by
  intro events
  induction events with
  | nil => intro lo last0 _; exact Nat.zero_le 1
  | cons e rest ih =>
    intro lo last0 hb
    have hbe := hb e (List.mem_cons_self e rest)
    rcases process_event_cases e.1 e.2.1 e.2.2 last0 with hnone | ⟨hsome, _⟩
    · show (let r := process_event e.1 e.2.1 e.2.2 last0
            let tail := processAll rest r.2
            match r.1 with
            | none => tail
            | some _ => (tail.1 + 1, tail.2)).1 ≤ 1
      rw [hnone]
      exact ih lo last0 fun ev hev => hb ev (List.mem_cons_of_mem _ hev)
    · show (let r := process_event e.1 e.2.1 e.2.2 last0
            let tail := processAll rest r.2
            match r.1 with
            | none => tail
            | some _ => (tail.1 + 1, tail.2)).1 ≤ 1
      rw [hsome]
      have h0 := processAll_zero rest lo e.2.2 hbe.1
        fun ev hev => hb ev (List.mem_cons_of_mem _ hev)
      simpa [h0] using Nat.le_refl 1

theorem process_event_emit (kind : EventKind) (paths : List String)
    (now last_emit : Nat) (hk1 : kind ≠ EventKind.access)
    (hk2 : kind ≠ EventKind.other)
    (hne : (paths.filter fun p => !should_ignore_path p) ≠ [])
    (hwin : last_emit + DEBOUNCE_MS ≤ now) :
    process_event kind paths now last_emit
      = (some (paths.filter fun p => !should_ignore_path p), now) := by
  have hnd : ¬ now - last_emit < DEBOUNCE_MS := by
    simp only [DEBOUNCE_MS] at hwin ⊢
    omega
  have hnemp : ¬ (paths.filter fun p => !should_ignore_path p).isEmpty :=
    by simpa [List.isEmpty_iff] using hne
  simp only [process_event]
  rw [if_neg hk1, if_neg hk2, if_neg hnemp, if_neg hnd]

/-- Claim C9: an event arriving less than the debounce window after the
last emission is dropped without emission and without touching the
last-emit instant; any sequence of events whose arrival instants all fall
within one window span produces at most one emission; and a surviving
event arriving once the window has reopened produces exactly one further
emission, carrying its relevant paths and resetting the last-emit
instant. -/
theorem watcher_debounce :
    (∀ (kind : EventKind) (paths : List String) (now last_emit : Nat),
      now < last_emit + DEBOUNCE_MS →
      process_event kind paths now last_emit = (none, last_emit)) ∧
    (∀ (events : List (EventKind × List String × Nat)) (lo last0 : Nat),
      (∀ ev ∈ events, lo ≤ ev.2.2 ∧ ev.2.2 < lo + DEBOUNCE_MS) →
      (processAll events last0).1 ≤ 1) ∧
    (∀ (kind : EventKind) (paths : List String) (now last_emit : Nat),
      kind ≠ EventKind.access → kind ≠ EventKind.other →
      (paths.filter fun p => !should_ignore_path p) ≠ [] →
      last_emit + DEBOUNCE_MS ≤ now →
      process_event kind paths now last_emit
        = (some (paths.filter fun p => !should_ignore_path p), now)) :=
  ⟨process_event_drop, processAll_le_one,
    fun kind paths now last_emit hk1 hk2 hne hwin =>
      process_event_emit kind paths now last_emit hk1 hk2 hne hwin⟩

theorem watcher_debounce_witness :
    ((1100 : Nat) < 1000 + DEBOUNCE_MS ∧
      process_event EventKind.modify ["a.txt"] 1100 1000 = (none, 1000)) ∧
    ((∀ ev ∈ [(EventKind.modify, ["a.txt"], 1000),
        (EventKind.modify, ["b.txt"], 1100),
        (EventKind.modify, ["c.txt"], 1200)],
      (1000 : Nat) ≤ ev.2.2 ∧ ev.2.2 < 1000 + DEBOUNCE_MS) ∧
      (processAll [(EventKind.modify, ["a.txt"], 1000),
        (EventKind.modify, ["b.txt"], 1100),
        (EventKind.modify, ["c.txt"], 1200)] 0).1 ≤ 1) ∧
    ((1000 : Nat) + DEBOUNCE_MS ≤ 2000 ∧
      process_event EventKind.modify ["d.txt"] 2000 1000
        = (some ["d.txt"], 2000)) :=
  ⟨⟨by decide, watcher_debounce.1 EventKind.modify ["a.txt"] 1100 1000
      (by decide)⟩,
    ⟨by decide, watcher_debounce.2.1
      [(EventKind.modify, ["a.txt"], 1000),
        (EventKind.modify, ["b.txt"], 1100),
        (EventKind.modify, ["c.txt"], 1200)] 1000 0 (by decide)⟩,
    ⟨by decide, watcher_debounce.2.2 EventKind.modify ["d.txt"] 2000 1000
      (by decide) (by decide) (by decide) (by decide)⟩⟩

end Hibiscus
